import Mathlib

/-!
Verification of the grid-search cross-validation module (`search.py`).

The development shallowly embeds `BaseSearchCV.__init__` / `fit` / `test` /
`predict` and `GridSearchCV.__init__`.  Measure values, which are Python
floats in the source, are modelled as exact rationals (`ℚ`); Python
exceptions are modelled by the `Except SearchError` monad; numpy arrays
become lists, with `reshape`, `mean`, `std`, `argmin`, `argmax` and
`argsort` translated individually at their call sites.  External
collaborators (the estimator class, the `fit_and_score` worker, the refit
on the full train set) are parameters of the model, bundled in
`Externals`.
-/

-- The batteries implementations of the rational operations are marked
-- irreducible, which blocks kernel evaluation in `decide`; re-marking them
-- semireducible lets concrete runs of the model be checked by the kernel.
attribute [local semireducible] Rat.add Rat.mul Rat.sub Rat.inv

-- Concrete runs of the embedded pipeline unfold deeply during `decide`.
set_option maxRecDepth 100000

/-- Decidable equality for `Except`, used to evaluate the model on concrete
inputs (the library does not provide an instance). -/
instance exceptDecEq {ε α : Type} [DecidableEq ε] [DecidableEq α] :
    DecidableEq (Except ε α) := fun a b =>
  match a, b with
  | .ok x, .ok y => if h : x = y then .isTrue (by rw [h]) else .isFalse (by simp [h])
  | .error e, .error f => if h : e = f then .isTrue (by rw [h]) else .isFalse (by simp [h])
  | .ok _, .error _ => .isFalse (by simp)
  | .error _, .ok _ => .isFalse (by simp)

/-- The Python exceptions the embedded code can raise.  The source raises
only `ValueError`, `KeyError`, `IndexError` and `AttributeError`; external
collaborators may raise anything, modelled by `externalError`.  The final
constructor is modelled from the spec: §7 names an
`UnknownMeasureDirectionError` that the selection policy is supposed to
raise for a measure of unknown direction; the code never raises it, and the
constructor exists only so that the spec-level statement can be written
down and compared with what the code actually does. -/
inductive SearchError where
  | valueError : String → SearchError
  | keyError : String → SearchError
  | indexError : String → SearchError
  | attributeError : String → SearchError
  | externalError : String → SearchError
  | unknownMeasureDirectionError : String → SearchError
  deriving DecidableEq, Repr

/-- One `(test_measures, train_measures, fit_time, test_time)` tuple as
returned by the external `fit_and_score` worker for a single trial.  The
measure dictionaries are association lists from measure name to value. -/
structure TrialResult where
  testMeasures : List (String × ℚ)
  trainMeasures : List (String × ℚ)
  fitTime : ℚ
  testTime : ℚ
  deriving DecidableEq, Repr

instance : Inhabited TrialResult := ⟨⟨[], [], 0, 0⟩⟩

/-- Python dictionary read `d[k]`: the value at the key, or a `KeyError`
naming the key. -/
def dictGet {β : Type} (d : List (String × β)) (k : String) : Except SearchError β :=
  match d.lookup k with
  | some v => .ok v
  | none => .error (.keyError k)

/-- Python list read `l[i]`: the element at the index, or an `IndexError`. -/
def listGet {α : Type} (l : List α) (i : Nat) : Except SearchError α :=
  match l.get? i with
  | some v => .ok v
  | none => .error (.indexError "list index out of range")

/-- Python dictionary write `d[k] = v` on an existing key: the value is
replaced in place, insertion order unchanged. -/
def assocUpdate {β : Type} : List (String × β) → String → β → List (String × β)
  | [], _, _ => []
  | (k', v') :: rest, k, v =>
      if k' = k then (k', v) :: rest else (k', v') :: assocUpdate rest k v

/-- Python `str.lower()` (ASCII range, which covers every measure name the
module handles). -/
def pyLower (s : String) : String := ⟨s.data.map Char.toLower⟩

/-- numpy `a.mean(axis=1)` applied to one row: the sum divided by the
length (division by zero never occurs on the pipeline's inputs). -/
def qMean (l : List ℚ) : ℚ := l.sum / l.length

/-- The square of numpy `a.std(axis=1)` applied to one row.  numpy computes
`sqrt(mean(abs(x - x.mean())**2))` with `ddof=0`; the square root of a
rational is irrational in general, so the model carries the squared value,
which determines the standard deviation uniquely (the square root is a
bijection on nonnegative reals). -/
def qVarPop (l : List ℚ) : ℚ := qMean (l.map (fun x => (x - qMean l) ^ 2))

/-- Modelled from the spec: the arithmetic mean of a list of values
(§4.3 "mean ... across the fold axis"). -/
def specArithMean (l : List ℚ) : ℚ := l.sum / l.length

/-- Modelled from the spec: the population variance (the square of the
population standard deviation, §4.3 "population standard deviation"):
squared deviations from the mean, divided by the count `n`. -/
def specPopVariance (l : List ℚ) : ℚ :=
  (l.map (fun x => (x - specArithMean l) ^ 2)).sum / l.length

/-- The sample variance (divided by `n - 1` instead of `n`), which the spec
says the code must NOT use; kept for contrast with `specPopVariance`. -/
def specSampleVariance (l : List ℚ) : ℚ :=
  (l.map (fun x => (x - specArithMean l) ^ 2)).sum / ((l.length : ℚ) - 1)

/-- numpy `a.argmin()` on a one-dimensional array: the index of the
minimum; per the numpy documentation, with multiple occurrences of the
minimum the first occurrence is returned. -/
def argminIdx : List ℚ → Nat
  | [] => 0
  | [_] => 0
  | x :: y :: rest =>
      let r := argminIdx (y :: rest)
      if x ≤ (y :: rest).getD r 0 then 0 else r + 1

/-- numpy `a.argmax()` on a one-dimensional array: the index of the
maximum, the first occurrence winning ties. -/
def argmaxIdx : List ℚ → Nat
  | [] => 0
  | [_] => 0
  | x :: y :: rest =>
      let r := argmaxIdx (y :: rest)
      if (y :: rest).getD r 0 ≤ x then 0 else r + 1

/-!
## The numpy argsort

`mean_test_measures.argsort()` at line 115 of `search.py` calls numpy's
default sort kind, `quicksort`, which numpy implements as introsort:
median-of-3 quicksort on the index array, switching to insertion sort for
segments of at most 16 elements and to heapsort when a depth limit is
exhausted (`npy_aquicksort` / `npy_aheapsort` in `numpy/core/src/npysort`).
The port below follows that C code index for index; the explicit `fuel`
arguments only bound the loops so the functions are total, and are chosen
large enough that they never run out on the inputs evaluated in this
development.  numpy's documentation warns that this default sort is NOT
stable, which is what the rank tie-break facts below turn on.
-/

/-- Swap of two positions of the index array (`INTP_SWAP`). -/
def npSwap (t : List Nat) (a b : Nat) : List Nat :=
  let x := t.getD a 0
  let y := t.getD b 0
  (t.set a y).set b x

/-- The key at slot `k` of the index array: `v[tosort[k]]`. -/
def vAt (v : List ℚ) (t : List Nat) (k : Nat) : ℚ := v.getD (t.getD k 0) 0

/-- The pointer scan `do ++pi; while (v[*pi] < vp)`, started at the
position after the old `pi`: the first slot at or after `i` whose key is
not below the pivot. -/
def scanUp (v : List ℚ) (t : List Nat) (vp : ℚ) : Nat → Nat → Nat
  | 0, i => i
  | fuel + 1, i => if vAt v t i < vp then scanUp v t vp fuel (i + 1) else i

/-- The pointer scan `do --pj; while (vp < v[*pj])`, started at the
position before the old `pj`. -/
def scanDown (v : List ℚ) (t : List Nat) (vp : ℚ) : Nat → Nat → Nat
  | 0, j => j
  | fuel + 1, j => if vp < vAt v t j then scanDown v t vp fuel (j - 1) else j

/-- The inner partition exchange loop of `npy_aquicksort`: scan up, scan
down, stop when the pointers cross, otherwise swap and repeat.  Returns
the array and the final `pi`. -/
def partLoop (v : List ℚ) (vp : ℚ) : Nat → List Nat → Nat → Nat → List Nat × Nat
  | 0, t, pi, _ => (t, pi)
  | fuel + 1, t, pi, pj =>
      let pi' := scanUp v t vp (t.length + 1) (pi + 1)
      let pj' := scanDown v t vp (t.length + 1) (pj - 1)
      if pj' ≤ pi' then (t, pi')
      else partLoop v vp fuel (npSwap t pi' pj') pi' pj'

/-- One median-of-3 quicksort partition of the segment `[pl, pr]`,
exactly as in `npy_aquicksort`: order `*pl`, `*pm`, `*pr`, park the pivot
index at `pr - 1`, run the exchange loop, and restore the pivot at the
crossing point `pi`. -/
def npPartition (v : List ℚ) (t : List Nat) (pl pr : Nat) : List Nat × Nat :=
  let pm := pl + (pr - pl) / 2
  let t := if vAt v t pm < vAt v t pl then npSwap t pm pl else t
  let t := if vAt v t pr < vAt v t pm then npSwap t pr pm else t
  let t := if vAt v t pm < vAt v t pl then npSwap t pm pl else t
  let vp := vAt v t pm
  let t := npSwap t pm (pr - 1)
  let tpi := partLoop v vp (pr - pl + 2) t pl (pr - 1)
  (npSwap tpi.1 tpi.2 (pr - 1), tpi.2)

/-- The shift loop of the insertion sort at the bottom of
`npy_aquicksort`: move the saved index `vi` left over every strictly
greater key above `pl`, then store it. -/
def insertLoop (v : List ℚ) (vp : ℚ) (vi : Nat) (pl : Nat) :
    Nat → List Nat → Nat → List Nat
  | 0, t, pj => t.set pj vi
  | fuel + 1, t, pj =>
      if pl < pj ∧ vp < v.getD (t.getD (pj - 1) 0) 0 then
        insertLoop v vp vi pl fuel (t.set pj (t.getD (pj - 1) 0)) (pj - 1)
      else t.set pj vi

/-- The insertion sort `npy_aquicksort` runs on a segment `[pl, pr]` of at
most `SMALL_QUICKSORT + 1 = 16` slots (and on which numpy's tie behavior
is first-occurrence stable). -/
def npInsertionRange (v : List ℚ) (t : List Nat) (pl pr : Nat) : List Nat :=
  (List.range' (pl + 1) (pr - pl)).foldl
    (fun t pi =>
      let vi := t.getD pi 0
      insertLoop v (v.getD vi 0) vi pl (pi + 1) t pi)
    t

/-- Heap read `a[h]` of `npy_aheapsort`, whose heap is 1-indexed from the
base of the segment (`a = tosort - 1`). -/
def heapGet (t : List Nat) (base h : Nat) : Nat := t.getD (base + h - 1) 0

/-- Heap write `a[h] = x` of `npy_aheapsort`. -/
def heapSet (t : List Nat) (base h : Nat) (x : Nat) : List Nat :=
  t.set (base + h - 1) x

/-- The sift-down loop shared by both phases of `npy_aheapsort`. -/
def siftDown (v : List ℚ) (base : Nat) (tmp : Nat) :
    Nat → List Nat → Nat → Nat → Nat → List Nat
  | 0, t, i, _, _ => heapSet t base i tmp
  | fuel + 1, t, i, j, n =>
      if j ≤ n then
        let j := if j < n ∧ v.getD (heapGet t base j) 0 < v.getD (heapGet t base (j + 1)) 0
          then j + 1 else j
        if v.getD tmp 0 < v.getD (heapGet t base j) 0 then
          siftDown v base tmp fuel (heapSet t base i (heapGet t base j)) j (j + j) n
        else heapSet t base i tmp
      else heapSet t base i tmp

/-- `npy_aheapsort` on the segment `[pl, pr]`: heapify from `n/2` down to
`1`, then repeatedly move the root to the end of the shrinking heap. -/
def npAHeapsortRange (v : List ℚ) (t : List Nat) (pl pr : Nat) : List Nat :=
  let n := pr - pl + 1
  let t := (List.range (n / 2)).foldl
    (fun t k =>
      let l := n / 2 - k
      siftDown v pl (heapGet t pl l) (n + 2) t l (l + l) n)
    t
  (List.range (n - 1)).foldl
    (fun t k =>
      let m := n - k
      let tmp := heapGet t pl m
      let t := heapSet t pl m (heapGet t pl 1)
      siftDown v pl tmp (n + 2) t 1 2 (m - 1))
    t

/-- The driver loop of `npy_aquicksort`: partition while the segment holds
more than `SMALL_QUICKSORT = 15` further elements, pushing the larger half
on an explicit stack; insertion sort below that size; heapsort when the
shared depth counter runs out. -/
def npAQLoop (v : List ℚ) : Nat → List Nat → Nat → Nat → List (Nat × Nat) → Nat → List Nat
  | 0, t, _, _, _, _ => t
  | fuel + 1, t, pl, pr, stack, depth =>
      if 15 < pr - pl then
        if depth = 0 then
          let t := npAHeapsortRange v t pl pr
          match stack with
          | [] => t
          | (pl', pr') :: rest => npAQLoop v fuel t pl' pr' rest depth
        else
          let tpi := npPartition v t pl pr
          let t := tpi.1
          let pi := tpi.2
          if pi - pl < pr - pi then
            npAQLoop v fuel t pl (pi - 1) ((pi + 1, pr) :: stack) (depth - 1)
          else
            npAQLoop v fuel t (pi + 1) pr ((pl, pi - 1) :: stack) (depth - 1)
      else
        let t := npInsertionRange v t pl pr
        match stack with
        | [] => t
        | (pl', pr') :: rest => npAQLoop v fuel t pl' pr' rest depth

/-- `mean_test_measures.argsort()`: numpy's default (quicksort/introsort)
argsort of a one-dimensional float array, as ported above.  The depth
limit is `npy_get_msb(num) * 2` tested before decrementing, which allows
`2 * log2 n + 1` partition rounds. -/
def npArgsort (v : List ℚ) : List Nat :=
  let n := v.length
  if n = 0 then []
  else npAQLoop v (4 * n + 64) (List.range n) 0 (n - 1) [] (2 * Nat.log2 n + 1)

/-- Lines 116–118 of `search.py`: `rank[indices[k]] = k + 1` for the index
permutation returned by argsort, i.e. the rank of row `i` is one more than
the position of `i` in `indices`.  (`np.empty_like` leaves slots that
`indices` does not cover undefined; the model returns `n + 1` there, which
never happens when `indices` is a permutation of `0..n-1`.) -/
def rankFromArgsort (indices : List Nat) (n : Nat) : List Nat :=
  (List.range n).map (fun i => List.indexOf i indices + 1)

/-- The `rank_test_{m}` column the aggregation loop computes for a mean
column: scatter the ranks `1..n` through numpy's argsort output. -/
def rankTestColumn (means : List ℚ) : List Nat :=
  rankFromArgsort (npArgsort means) means.length

/-- The documented contract of `np.argsort` on a one-dimensional array:
the output is a permutation of `0..n-1` that sorts the keys ascending (the
tie order inside the output is NOT part of this contract: the default sort
kind is documented as not stable). -/
def ArgsortConforms (means : List ℚ) (indices : List Nat) : Prop :=
  indices.Perm (List.range means.length) ∧
    (indices.map (fun i => means.getD i 0)).Pairwise (· ≤ ·)

instance (means : List ℚ) (indices : List Nat) :
    Decidable (ArgsortConforms means indices) := by
  unfold ArgsortConforms; infer_instance

/-!
## The search pipeline

`BaseSearchCV.fit` (lines 54–149 of `search.py`) is embedded as a pure
function of the retained state, the dataset and the external
collaborators.  The generic parameters are `V` (the type of a parameter
value inside a combination), `E` (the estimator type), `Fold` (one
`(trainset, testset)` pair produced by the splitter) and `FullTr` (the
value of `data.build_full_trainset()`).
-/

/-- The dataset as the search sees it: whether it was loaded with
`load_from_folds()` (an instance of `DatasetUserFolds`), the ordered
fold sequence `cv.split(data)` yields, and `data.build_full_trainset()`.
`get_cv`/`get_n_folds` are collapsed into the fold list: the number of
folds is its length. -/
structure Dataset (Fold FullTr : Type) where
  isUserFolds : Bool
  folds : List Fold
  fullTrainset : FullTr
  deriving DecidableEq

/-- The external collaborators: the estimator class (its constructor may
raise, and failures propagate unmodified), the `fit_and_score` worker
(called with the requested measures and the train-measures flag), and the
full-dataset `fit` used by the refit step. -/
structure Externals (V E Fold FullTr : Type) where
  algoClass : List (String × V) → Except SearchError E
  fitAndScore : E → Fold → List String → Bool → Except SearchError TrialResult
  fitFull : E → FullTr → Except SearchError E

/-- The `cv_results` table.  Columns are keyed by measure name where the
source formats the measure into the column name; `splitTest`/`splitTrain`
hold, per measure, one column per split; `stdSq...` columns carry the
square of the corresponding numpy `std` column (see `qVarPop`). -/
structure CvResults (V : Type) where
  splitTest : List (String × List (List ℚ))
  splitTrain : List (String × List (List ℚ))
  meanTest : List (String × List ℚ)
  stdSqTest : List (String × List ℚ)
  meanTrain : List (String × List ℚ)
  stdSqTrain : List (String × List ℚ)
  rankTest : List (String × List Nat)
  meanFitTime : List ℚ
  stdSqFitTime : List ℚ
  meanTestTime : List ℚ
  stdSqTestTime : List ℚ
  params : List (List (String × V))
  paramCols : List (String × List V)
  deriving DecidableEq

/-- The state the search object retains: the configuration stored by
`__init__`, the parameter combinations, and the five attributes `fit`
assigns at lines 145–149 (absent before the first successful `fit`). -/
structure SearchState (V E : Type) where
  measures : List String
  refit : Option String
  returnTrainMeasures : Bool
  paramCombinations : List (List (String × V))
  bestIndex : Option (List (String × Nat)) := none
  bestParams : Option (List (String × List (String × V))) := none
  bestScore : Option (List (String × ℚ)) := none
  bestEstimator : Option (List (String × E)) := none
  cvResults : Option (CvResults V) := none
  deriving DecidableEq

/-- Lines 62–68: `product(self.param_combinations, cv.split(data))` — one
trial per (combination, fold) pair, the fold varying fastest. -/
def scheduleTrials {P Fold : Type} (combs : List P) (folds : List Fold) :
    List (P × Fold) :=
  combs.flatMap (fun p => folds.map (fun f => (p, f)))

/-- Lines 62–71: construct an estimator from each combination and hand it
to `fit_and_score`; `joblib.Parallel` returns the results in submission
order, and any raise aborts the whole batch. -/
def runTrials {V E Fold FullTr : Type} (ext : Externals V E Fold FullTr)
    (measures : List String) (rtm : Bool)
    (pairs : List (List (String × V) × Fold)) :
    Except SearchError (List TrialResult) :=
  pairs.mapM (fun pf => do
    let algo ← ext.algoClass pf.1
    ext.fitAndScore algo pf.2 measures rtm)

/-- numpy `asarray(flat).reshape(C, F)` read row-wise: row `i`, column `j`
is `flat[i * F + j]`. -/
def reshapeRows (C F : Nat) (flat : List ℚ) : List (List ℚ) :=
  (List.range C).map (fun i => (List.range F).map (fun j => flat.getD (i * F + j) 0))

/-- Lines 78–87: per measure, collect `d[m]` from every trial dictionary
(`KeyError` if absent) and reshape to `(n_combinations, n_folds)`; the
train matrix only when `return_train_measures` is set. -/
def buildMats (measures : List String) (rtm : Bool) (C F : Nat)
    (out : List TrialResult) :
    Except SearchError (List (String × List (List ℚ) × List (List ℚ))) :=
  measures.mapM (fun m => do
    let flatT ← (out.map TrialResult.testMeasures).mapM (fun d => dictGet d m)
    let matT := reshapeRows C F flatT
    let matTr ← if rtm then do
        let flatTr ← (out.map TrialResult.trainMeasures).mapM (fun d => dictGet d m)
        pure (reshapeRows C F flatTr)
      else pure ([] : List (List ℚ))
    pure (m, matT, matTr))

/-- Lines 120–125: the direction dispatch of the Best-Selector.  The code
recognizes exactly `('mae', 'rmse')` (argmin) and `('fcp',)` (argmax); for
any other measure `best_index[m]` is never assigned, so the read
`best_index[m]` on line 125 raises `KeyError(m)`, which the error branch
models.  numpy's `argmin`/`argmax` raise a `ValueError` on an empty
array. -/
def bestIndexFor (m : String) (means : List ℚ) : Except SearchError Nat :=
  if m = "mae" ∨ m = "rmse" then
    if means.isEmpty then
      .error (.valueError "attempt to get argmin of an empty sequence")
    else .ok (argminIdx means)
  else if m = "fcp" then
    if means.isEmpty then
      .error (.valueError "attempt to get argmax of an empty sequence")
    else .ok (argmaxIdx means)
  else .error (.keyError m)

/-- Everything the per-measure body of the loop at lines 94–127 produces
for one measure: the split columns, the mean/std columns, the rank column,
and the `best_*` entries. -/
structure MeasureResult (V E : Type) where
  measure : String
  splitTest : List (List ℚ)
  splitTrain : List (List ℚ)
  meanTest : List ℚ
  stdSqTest : List ℚ
  meanTrain : List ℚ
  stdSqTrain : List ℚ
  rankTest : List Nat
  bestIndex : Nat
  bestParams : List (String × V)
  bestScore : ℚ
  bestEstimator : E
  deriving DecidableEq

/-- The body of the loop `for m in self.measures` at lines 94–127 for one
measure, given the matrices the loop at lines 81–87 stored for it:
split columns (`test_measures[m][:, split]`), means and (squared) stds
over the fold axis, the rank column, and the `best_*` assignment —
`best_index[m]` by direction, `best_params[m]` and `best_score[m]` by
indexing with it, `best_estimator[m]` by a fresh construction. -/
def processMeasure {V E Fold FullTr : Type} (ext : Externals V E Fold FullTr)
    (combs : List (List (String × V))) (F : Nat) (rtm : Bool)
    (m : String) (matT matTr : List (List ℚ)) :
    Except SearchError (MeasureResult V E) := do
  let splitTest := (List.range F).map (fun j => matT.map (fun row => row.getD j 0))
  let splitTrain :=
    if rtm then (List.range F).map (fun j => matTr.map (fun row => row.getD j 0))
    else []
  let means := matT.map qMean
  let stdSqs := matT.map qVarPop
  let meansTr := if rtm then matTr.map qMean else []
  let stdSqsTr := if rtm then matTr.map qVarPop else []
  let ranks := rankTestColumn means
  let bi ← bestIndexFor m means
  let bp ← listGet combs bi
  let bs ← listGet means bi
  let be ← ext.algoClass bp
  pure ⟨m, splitTest, splitTrain, means, stdSqs, meansTr, stdSqsTr, ranks, bi, bp, bs, be⟩

/-- `BaseSearchCV.fit` (lines 54–149), as the value of the new state; the
caller `fitSelf` below models when the Python object is mutated.  The
statement order follows the source: the user-folds guard, trial
scheduling and execution, the unpacking `zip(*out)` (which raises a
`ValueError` when there are no trials), the two per-measure loops, the
timing statistics, the `params` and `param_*` columns, the optional refit
of `best_estimator[self.refit]`, and finally the assignments of the five
attributes. -/
def fit {V E Fold FullTr : Type} (ext : Externals V E Fold FullTr)
    (st : SearchState V E) (data : Dataset Fold FullTr) :
    Except SearchError (SearchState V E) := do
  if st.refit.isSome && data.isUserFolds then
    throw (SearchError.valueError
      "refit cannot be used when data has been loaded with load_from_folds().")
  let pairs := scheduleTrials st.paramCombinations data.folds
  let out ← runTrials ext st.measures st.returnTrainMeasures pairs
  if out.isEmpty then
    throw (SearchError.valueError "not enough values to unpack (expected 4, got 0)")
  let C := st.paramCombinations.length
  let F := data.folds.length
  let mats ← buildMats st.measures st.returnTrainMeasures C F out
  let mres ← mats.mapM (fun mm =>
    processMeasure ext st.paramCombinations F st.returnTrainMeasures mm.1 mm.2.1 mm.2.2)
  let fitTimesMat := reshapeRows C F (out.map TrialResult.fitTime)
  let testTimesMat := reshapeRows C F (out.map TrialResult.testTime)
  let first ← listGet st.paramCombinations 0
  let paramCols ← first.mapM (fun kv => do
    let col ← st.paramCombinations.mapM (fun c => dictGet c kv.1)
    pure (kv.1, col))
  let bestEstimator0 := mres.map (fun r => (r.measure, r.bestEstimator))
  let bestEstimator ← match st.refit with
    | none => pure bestEstimator0
    | some rm => do
        let est ← dictGet bestEstimator0 rm
        let fitted ← ext.fitFull est data.fullTrainset
        pure (assocUpdate bestEstimator0 rm fitted)
  pure { st with
    bestIndex := some (mres.map (fun r => (r.measure, r.bestIndex)))
    bestParams := some (mres.map (fun r => (r.measure, r.bestParams)))
    bestScore := some (mres.map (fun r => (r.measure, r.bestScore)))
    bestEstimator := some bestEstimator
    cvResults := some {
      splitTest := mres.map (fun r => (r.measure, r.splitTest))
      splitTrain := mres.map (fun r => (r.measure, r.splitTrain))
      meanTest := mres.map (fun r => (r.measure, r.meanTest))
      stdSqTest := mres.map (fun r => (r.measure, r.stdSqTest))
      meanTrain := mres.map (fun r => (r.measure, r.meanTrain))
      stdSqTrain := mres.map (fun r => (r.measure, r.stdSqTrain))
      rankTest := mres.map (fun r => (r.measure, r.rankTest))
      meanFitTime := fitTimesMat.map qMean
      stdSqFitTime := fitTimesMat.map qVarPop
      meanTestTime := testTimesMat.map qMean
      stdSqTestTime := testTimesMat.map qVarPop
      params := st.paramCombinations
      paramCols := paramCols } }

/-- The Python call `search.fit(data)` as seen from the object: the five
`self.…` assignments happen only after every earlier statement has
succeeded, so on a raise the object keeps its previous state. -/
def fitSelf {V E Fold FullTr : Type} (ext : Externals V E Fold FullTr)
    (st : SearchState V E) (data : Dataset Fold FullTr) :
    SearchState V E × Except SearchError Unit :=
  match fit ext st data with
  | .ok st' => (st', .ok ())
  | .error e => (st, .error e)

/-- `BaseSearchCV.test` (lines 151–162): raise unless `self.refit` is
set, otherwise delegate to `self.best_estimator[self.refit].test(testset,
verbose)` (the estimator's behavior is the function `estTest`; reading the
attribute before any fit raises an `AttributeError`). -/
def searchTest {V E Ts Out : Type} (st : SearchState V E)
    (estTest : E → Ts → Bool → Out) (testset : Ts) (verbose : Bool) :
    Except SearchError Out :=
  match st.refit with
  | none => .error (.valueError "refit is False, cannot use test()")
  | some rm =>
      match st.bestEstimator with
      | none => .error (.attributeError "best_estimator")
      | some be =>
          match be.lookup rm with
          | none => .error (.keyError rm)
          | some est => .ok (estTest est testset verbose)

/-- `BaseSearchCV.predict` (lines 164–175): same guard, delegating to
`self.best_estimator[self.refit].predict(*args)`. -/
def searchPredict {V E Args Out : Type} (st : SearchState V E)
    (estPredict : E → Args → Out) (args : Args) :
    Except SearchError Out :=
  match st.refit with
  | none => .error (.valueError "refit is False, cannot use predict()")
  | some rm =>
      match st.bestEstimator with
      | none => .error (.attributeError "best_estimator")
      | some be =>
          match be.lookup rm with
          | none => .error (.keyError rm)
          | some est => .ok (estPredict est args)

/-- The `refit` argument of `__init__`: a boolean or a measure name. -/
inductive RefitArg where
  | flag : Bool → RefitArg
  | name : String → RefitArg
  deriving DecidableEq

/-- `BaseSearchCV.__init__` (lines 27–52), returning the stored
`(self.measures, self.refit)`: measures are lowercased; a string refit is
lowercased and must appear among the lowercased measures (else the
`ValueError` of lines 37–39, whose message contains a literal unformatted
`\x7b\x7d` placeholder because the source never calls `.format`);
`refit=True` stores the first lowercased measure (`self.measures[0]`,
an `IndexError` if `measures` is empty); anything else stores `False`. -/
def baseSearchInit (measures : List String) (refit : RefitArg) :
    Except SearchError (List String × Option String) :=
  let ms := measures.map pyLower
  match refit with
  | .name s =>
      if ms.contains (pyLower s) then .ok (ms, some (pyLower s))
      else .error (.valueError
        "It looks like the measure you want to use with refit (\x7b\x7d) is not in the measures parameter")
  | .flag true =>
      match ms with
      | [] => .error (.indexError "list index out of range")
      | m0 :: _ => .ok (ms, some m0)
  | .flag false => .ok (ms, none)

/-- `itertools.product(*value_lists)`: the Cartesian product in the order
with the first list varying slowest. -/
def cartesianProd {α : Type} : List (List α) → List (List α)
  | [] => [[]]
  | l :: ls => l.flatMap (fun x => (cartesianProd ls).map (fun xs => x :: xs))

/-- Lines 277–278 of `GridSearchCV.__init__`:
`[dict(zip(self.param_grid, v)) for v in product(*self.param_grid.values())]`.
The grid is the ordered mapping stored in `self.param_grid` (the
`_parse_options` preprocessing applied at line 276 is not part of this
file's sources); a combination is the association list pairing the grid's
keys with one chosen value each. -/
def expandGrid {α : Type} (grid : List (String × List α)) :
    List (List (String × α)) :=
  (cartesianProd (grid.map Prod.snd)).map (fun vs => (grid.map Prod.fst).zip vs)

/-- `GridSearchCV.__init__` (lines 267–278): run the base initializer and
store the expanded combinations, with no results yet. -/
def gridSearchInit {V E : Type} (measures : List String) (refit : RefitArg)
    (rtm : Bool) (paramGrid : List (String × List V)) :
    Except SearchError (SearchState V E) := do
  let cfg ← baseSearchInit measures refit
  pure { measures := cfg.1, refit := cfg.2, returnTrainMeasures := rtm,
         paramCombinations := expandGrid paramGrid }

/-- What a successful `fit` commits (used to state claim C6): the
configuration and combinations are untouched, every `best_*` mapping has
exactly the requested measures as keys in order, and every column of the
results table has one entry per parameter combination (`C` rows; the
per-split column families have one column per fold). -/
def FitCommitted {V E : Type} (st st' : SearchState V E) (F : Nat) : Prop :=
  let C := st.paramCombinations.length
  st'.measures = st.measures ∧
  st'.refit = st.refit ∧
  st'.returnTrainMeasures = st.returnTrainMeasures ∧
  st'.paramCombinations = st.paramCombinations ∧
  (∃ b, st'.bestIndex = some b ∧ b.map Prod.fst = st.measures) ∧
  (∃ b, st'.bestParams = some b ∧ b.map Prod.fst = st.measures) ∧
  (∃ b, st'.bestScore = some b ∧ b.map Prod.fst = st.measures) ∧
  (∃ b, st'.bestEstimator = some b ∧ b.map Prod.fst = st.measures) ∧
  (∃ cvr, st'.cvResults = some cvr ∧
    cvr.meanTest.map Prod.fst = st.measures ∧
    cvr.stdSqTest.map Prod.fst = st.measures ∧
    cvr.rankTest.map Prod.fst = st.measures ∧
    cvr.splitTest.map Prod.fst = st.measures ∧
    (∀ p ∈ cvr.meanTest, p.2.length = C) ∧
    (∀ p ∈ cvr.stdSqTest, p.2.length = C) ∧
    (∀ p ∈ cvr.rankTest, p.2.length = C) ∧
    (∀ p ∈ cvr.splitTest, p.2.length = F ∧ ∀ c ∈ p.2, c.length = C) ∧
    cvr.meanFitTime.length = C ∧
    cvr.stdSqFitTime.length = C ∧
    cvr.meanTestTime.length = C ∧
    cvr.stdSqTestTime.length = C ∧
    cvr.params = st.paramCombinations)

/-!
## Concrete fixtures

A small closed instantiation of the generic parameters, used to evaluate
the model on concrete inputs: parameter values, estimators, folds are
natural numbers (an estimator is identified with the sum of its
parameter values), the full train set is `Unit`.
-/

/-- Concrete externals: deterministic worker whose rmse/mae/fcp values are
simple functions of the estimator and the fold, and a refit that adds 100
to the estimator. -/
def extFix : Externals Nat Nat Nat Unit where
  algoClass := fun p => .ok (p.foldl (fun a kv => a + kv.2) 0)
  fitAndScore := fun e f _ms _rtm =>
    .ok ⟨[("rmse", (e : ℚ) + (f : ℚ)), ("mae", (e : ℚ) * (f : ℚ)),
          ("fcp", (e : ℚ) - (f : ℚ))], [("rmse", 0)], (e : ℚ), (f : ℚ)⟩
  fitFull := fun e _ => .ok (e + 100)

/-- A concrete search state: two measures, refit on rmse, three
one-parameter combinations. -/
def stFix : SearchState Nat Nat where
  measures := ["rmse", "mae"]
  refit := some "rmse"
  returnTrainMeasures := false
  paramCombinations := [[("a", 1)], [("a", 2)], [("a", 0)]]

/-- The same search state with refit disabled. -/
def stNoRefitFix : SearchState Nat Nat := { stFix with refit := none }

/-- A concrete two-fold dataset not loaded from user folds. -/
def dataFix : Dataset Nat Unit := ⟨false, [10, 20], ()⟩

/-- The raw per-fold test values of combination `i` for measure `m`, read
directly off the flat trial-result sequence (fold `j` of combination `i`
is trial `i * F + j`); used to state what the aggregated columns must
equal. -/
def rawTestRow (out : List TrialResult) (F : Nat) (m : String) (i : Nat) : List ℚ :=
  (List.range F).map (fun j => ((out.getD (i * F + j) default).testMeasures.lookup m).getD 0)

/-!
## Theorems
-/

theorem except_bind_ok {ε α β : Type} {x : Except ε α} {f : α → Except ε β} {b : β}
    (h : x >>= f = .ok b) : ∃ a, x = .ok a ∧ f a = .ok b := by
  cases x with
  | ok a => exact ⟨a, rfl, h⟩
  | error e => simp only [Bind.bind, Except.bind] at h; exact absurd h (by simp)

theorem except_pure_ok {ε α : Type} {a b : α} (h : (pure a : Except ε α) = .ok b) : a = b := by
  simpa [pure, Except.pure] using h

theorem mapM_ok_length {ε α β : Type} (f : α → Except ε β) :
    ∀ (l : List α) (r : List β), l.mapM f = .ok r → r.length = l.length
  | [], r, h => by
      simp only [List.mapM_nil] at h
      rw [← except_pure_ok h]
      rfl
  | a :: l, r, h => by
      rw [List.mapM_cons] at h
      obtain ⟨b, _, h2⟩ := except_bind_ok h
      obtain ⟨bs, hbs, h3⟩ := except_bind_ok h2
      rw [← except_pure_ok h3]
      simpa using mapM_ok_length f l bs hbs

theorem mapM_ok_mem {ε α β : Type} (f : α → Except ε β) :
    ∀ (l : List α) (r : List β), l.mapM f = .ok r → ∀ b ∈ r, ∃ a ∈ l, f a = .ok b
  | [], r, h => by
      simp only [List.mapM_nil] at h
      rw [← except_pure_ok h]; simp
  | a :: l, r, h => by
      rw [List.mapM_cons] at h
      obtain ⟨b, hb, h2⟩ := except_bind_ok h
      obtain ⟨bs, hbs, h3⟩ := except_bind_ok h2
      rw [← except_pure_ok h3]
      intro c hc
      rcases List.mem_cons.mp hc with rfl | hc
      · exact ⟨a, List.mem_cons_self a l, hb⟩
      · obtain ⟨a', ha', hfa'⟩ := mapM_ok_mem f l bs hbs c hc
        exact ⟨a', List.mem_cons_of_mem a ha', hfa'⟩

theorem mapM_ok_map_rel {ε α β γ : Type} (f : α → Except ε β) (g : β → γ) (h : α → γ)
    (hf : ∀ a b, f a = .ok b → g b = h a) :
    ∀ (l : List α) (r : List β), l.mapM f = .ok r → r.map g = l.map h
  | [], r, hok => by
      simp only [List.mapM_nil] at hok
      rw [← except_pure_ok hok]; simp
  | a :: l, r, hok => by
      rw [List.mapM_cons] at hok
      obtain ⟨b, hb, h2⟩ := except_bind_ok hok
      obtain ⟨bs, hbs, h3⟩ := except_bind_ok h2
      rw [← except_pure_ok h3]
      simp only [List.map_cons]
      rw [hf a b hb, mapM_ok_map_rel f g h hf l bs hbs]

theorem mapM_ok_getD {ε α β : Type} (f : α → Except ε β) (da : α) (db : β) :
    ∀ (l : List α) (r : List β), l.mapM f = .ok r →
      ∀ k, k < l.length → f (l.getD k da) = .ok (r.getD k db)
  | [], _, _, k, hk => by simp at hk
  | a :: l, r, h, k, hk => by
      rw [List.mapM_cons] at h
      obtain ⟨b, hb, h2⟩ := except_bind_ok h
      obtain ⟨bs, hbs, h3⟩ := except_bind_ok h2
      rw [← except_pure_ok h3]
      cases k with
      | zero => simpa using hb
      | succ k' =>
          simp only [List.getD_cons_succ]
          exact mapM_ok_getD f da db l bs hbs k' (by simpa using hk)

theorem argminIdx_lt_length : ∀ (l : List ℚ), l ≠ [] → argminIdx l < l.length
  | [_], _ => Nat.zero_lt_one
  | x :: y :: rest, _ => by
      show argminIdx (x :: y :: rest) < (y :: rest).length + 1
      simp only [argminIdx]
      split
      · exact Nat.succ_pos _
      · exact Nat.succ_lt_succ (argminIdx_lt_length (y :: rest) (by simp))

theorem argminIdx_le (l : List ℚ) (hne : l ≠ []) :
    ∀ j, j < l.length → l.getD (argminIdx l) 0 ≤ l.getD j 0 := by
  induction l with
  | nil => simp at hne
  | cons x xs ih =>
      intro j hj
      cases xs with
      | nil =>
          cases j with
          | zero => simp [argminIdx]
          | succ j' => simp at hj
      | cons y rest =>
          simp only [argminIdx]
          split
          · next hle =>
              cases j with
              | zero => simp
              | succ j' =>
                  simp only [List.getD_cons_zero, List.getD_cons_succ]
                  exact le_trans hle (ih (by simp) j' (by simpa using hj))
          · next hlt =>
              push_neg at hlt
              cases j with
              | zero => simpa [List.getD_cons_succ] using le_of_lt hlt
              | succ j' =>
                  simp only [List.getD_cons_succ]
                  exact ih (by simp) j' (by simpa using hj)

theorem argminIdx_first (l : List ℚ) :
    ∀ j, j < argminIdx l → l.getD j 0 > l.getD (argminIdx l) 0 := by
  induction l with
  | nil => simp [argminIdx]
  | cons x xs ih =>
      intro j hj
      cases xs with
      | nil => simp [argminIdx] at hj
      | cons y rest =>
          by_cases hle : x ≤ (y :: rest).getD (argminIdx (y :: rest)) 0
          · simp only [argminIdx, if_pos hle] at hj
            omega
          · push_neg at hle
            simp only [argminIdx, if_neg (not_le.mpr hle)] at hj ⊢
            cases j with
            | zero => simpa [List.getD_cons_succ] using hle
            | succ j' =>
                simp only [List.getD_cons_succ]
                exact ih j' (by omega)

theorem argmaxIdx_lt_length : ∀ (l : List ℚ), l ≠ [] → argmaxIdx l < l.length
  | [_], _ => Nat.zero_lt_one
  | x :: y :: rest, _ => by
      show argmaxIdx (x :: y :: rest) < (y :: rest).length + 1
      simp only [argmaxIdx]
      split
      · exact Nat.succ_pos _
      · exact Nat.succ_lt_succ (argmaxIdx_lt_length (y :: rest) (by simp))

theorem argmaxIdx_ge (l : List ℚ) (hne : l ≠ []) :
    ∀ j, j < l.length → l.getD j 0 ≤ l.getD (argmaxIdx l) 0 := by
  induction l with
  | nil => simp at hne
  | cons x xs ih =>
      intro j hj
      cases xs with
      | nil =>
          cases j with
          | zero => simp [argmaxIdx]
          | succ j' => simp at hj
      | cons y rest =>
          simp only [argmaxIdx]
          split
          · next hle =>
              cases j with
              | zero => simp
              | succ j' =>
                  simp only [List.getD_cons_zero, List.getD_cons_succ]
                  exact le_trans (ih (by simp) j' (by simpa using hj)) hle
          · next hlt =>
              push_neg at hlt
              cases j with
              | zero => simpa [List.getD_cons_succ] using le_of_lt hlt
              | succ j' =>
                  simp only [List.getD_cons_succ]
                  exact ih (by simp) j' (by simpa using hj)

theorem argmaxIdx_first (l : List ℚ) :
    ∀ j, j < argmaxIdx l → l.getD j 0 < l.getD (argmaxIdx l) 0 := by
  induction l with
  | nil => simp [argmaxIdx]
  | cons x xs ih =>
      intro j hj
      cases xs with
      | nil => simp [argmaxIdx] at hj
      | cons y rest =>
          by_cases hle : (y :: rest).getD (argmaxIdx (y :: rest)) 0 ≤ x
          · simp only [argmaxIdx, if_pos hle] at hj
            omega
          · push_neg at hle
            simp only [argmaxIdx, if_neg (not_le.mpr hle)] at hj ⊢
            cases j with
            | zero => simpa [List.getD_cons_succ] using hle
            | succ j' =>
                simp only [List.getD_cons_succ]
                exact ih j' (by omega)

theorem except_bind_error {ε α β : Type} {x : Except ε α} {f : α → Except ε β} {e : ε}
    (h : x = .error e) : x >>= f = .error e := by
  subst h; rfl

/-- Claim C2, counterexample: for the measure name `mse` (present in the
trial results but of unrecognized direction), the per-measure loop fails
with `KeyError('mse')` — the `best_index[m]` read at line 125 — and not
with the `UnknownMeasureDirectionError` the spec prescribes. -/
theorem unknown_direction_keyerror_cex_C2 :
    processMeasure extFix [[("a", 1)]] 1 false "mse" [[1]] [] =
      .error (.keyError "mse") ∧
    SearchError.keyError "mse" ≠ SearchError.unknownMeasureDirectionError "mse" := by
  constructor
  · decide
  · decide

/-- Claim C2, amended: the direction registry is hardcoded to
`('mae', 'rmse')` (minimize) and `('fcp',)` (maximize); for every other
measure name the selection does fail rather than silently default to a
direction, but with a `KeyError` naming the measure (the unassigned
`best_index[m]` lookup), not with a dedicated
`UnknownMeasureDirectionError`. -/
theorem unknown_direction_amended_C2 {V E Fold FullTr : Type}
    (ext : Externals V E Fold FullTr) (combs : List (List (String × V)))
    (F : Nat) (rtm : Bool) (m : String) (matT matTr : List (List ℚ))
    (hm : m ∉ (["mae", "rmse", "fcp"] : List String)) :
    processMeasure ext combs F rtm m matT matTr = .error (.keyError m) := by
  have h1 : ¬(m = "mae" ∨ m = "rmse") := by
    intro h; rcases h with h | h <;> subst h <;> simp at hm
  have h2 : ¬(m = "fcp") := by
    intro h; subst h; simp at hm
  have hbi : bestIndexFor m (matT.map qMean) = .error (.keyError m) := by
    simp [bestIndexFor, h1, h2]
  simp only [processMeasure]
  exact except_bind_error hbi

/-- Claim C2, witness: the amended theorem applied to the concrete measure
`mse`. -/
theorem unknown_direction_amended_C2_witness :
    ("mse" ∉ (["mae", "rmse", "fcp"] : List String)) ∧
    processMeasure extFix [[("a", 1)], [("a", 2)]] 2 false "mse" [[1, 2], [3, 4]] [] =
      .error (.keyError "mse") :=
  ⟨by decide, unknown_direction_amended_C2 extFix _ 2 false "mse" _ _ (by decide)⟩

/-- Claim C7: with refit configured and a dataset loaded from user folds,
`fit` raises the `ValueError` of lines 56–58 whatever the external
collaborators are (so before any estimator is constructed or trial run);
with refit not requested, `fit` does not depend on the user-folds flag at
all. -/
theorem refit_userfolds_guard_C7 {V E Fold FullTr : Type}
    (st : SearchState V E) (data : Dataset Fold FullTr) :
    (st.refit.isSome = true → data.isUserFolds = true →
      ∀ ext : Externals V E Fold FullTr,
        fit ext st data = .error (.valueError
          "refit cannot be used when data has been loaded with load_from_folds().")) ∧
    (st.refit = none → ∀ (ext : Externals V E Fold FullTr) (b : Bool),
      fit ext st { data with isUserFolds := b } = fit ext st data) := by
  constructor
  · intro h1 h2 ext
    simp [fit, h1, h2, throw, throwThe, MonadExceptOf.throw, Bind.bind, Except.bind]
  · intro h ext b
    obtain ⟨u, folds, ftr⟩ := data
    simp [fit, h]

/-- Claim C7, witness: the guard fires on a concrete refit-enabled state
and user-folds dataset, and with refit disabled the flag is inert. -/
theorem refit_userfolds_guard_C7_witness :
    fit extFix stFix ⟨true, [10, 20], ()⟩ = .error (.valueError
      "refit cannot be used when data has been loaded with load_from_folds().") ∧
    fit extFix stNoRefitFix ⟨true, [10, 20], ()⟩ =
      fit extFix stNoRefitFix ⟨false, [10, 20], ()⟩ :=
  ⟨(refit_userfolds_guard_C7 stFix ⟨true, [10, 20], ()⟩).1 (by decide) rfl extFix,
   (refit_userfolds_guard_C7 stNoRefitFix ⟨false, [10, 20], ()⟩).2 rfl extFix true⟩

/-- Claim C8: `test()` and `predict()` raise the refit-disabled
`ValueError` exactly when no refit measure is configured, and otherwise
return the corresponding operation of `best_estimator[refit]`
unmodified. -/
theorem test_predict_passthrough_C8 {V E Ts Out Args Out2 : Type}
    (st : SearchState V E) (estTest : E → Ts → Bool → Out)
    (estPredict : E → Args → Out2) (ts : Ts) (vb : Bool) (args : Args) :
    (st.refit = none →
      searchTest st estTest ts vb =
        .error (.valueError "refit is False, cannot use test()") ∧
      searchPredict st estPredict args =
        .error (.valueError "refit is False, cannot use predict()")) ∧
    (∀ rm be est, st.refit = some rm → st.bestEstimator = some be →
      be.lookup rm = some est →
      searchTest st estTest ts vb = .ok (estTest est ts vb) ∧
      searchPredict st estPredict args = .ok (estPredict est args)) := by
  constructor
  · intro h
    exact ⟨by simp [searchTest, h], by simp [searchPredict, h]⟩
  · intro rm be est h1 h2 h3
    exact ⟨by simp [searchTest, h1, h2, h3], by simp [searchPredict, h1, h2, h3]⟩

/-- Claim C8, witness: on a concrete state that has a best estimator for
the configured refit measure, `test`/`predict` delegate to it; with refit
disabled they raise. -/
theorem test_predict_passthrough_C8_witness :
    searchTest { stFix with bestEstimator := some [("rmse", 7), ("mae", 9)] }
        (fun e ts vb => (e, ts, vb)) 5 false = .ok (7, 5, false) ∧
    searchPredict { stFix with bestEstimator := some [("rmse", 7), ("mae", 9)] }
        (fun e a => e + a) 1 = .ok 8 ∧
    searchTest stNoRefitFix (fun (e : Nat) (ts : Nat) (vb : Bool) => (e, ts, vb)) 5 false =
      .error (.valueError "refit is False, cannot use test()") :=
  ⟨((test_predict_passthrough_C8 _ _ (fun (e : Nat) (a : Nat) => e + a) 5 false 1).2
      "rmse" [("rmse", 7), ("mae", 9)] 7 rfl rfl (by decide)).1,
   ((test_predict_passthrough_C8 { stFix with bestEstimator := some [("rmse", 7), ("mae", 9)] }
      (fun (e : Nat) (ts : Nat) (vb : Bool) => (e, ts, vb)) _ 5 false 1).2
      "rmse" [("rmse", 7), ("mae", 9)] 7 rfl rfl (by decide)).2,
   ((test_predict_passthrough_C8 stNoRefitFix (fun (e : Nat) (ts : Nat) (vb : Bool) => (e, ts, vb))
      (fun (e : Nat) (a : Nat) => e + a) 5 false 1).1 rfl).1⟩

/-- Claim C10: `__init__` lowercases the measures before storing them;
`refit=True` stores the head of the lowercased list; two measure lists
equal after lowercasing configure identical states, and a refit string is
matched against the lowercased measures by its own lowercasing. -/
theorem init_lowercase_C10 (ms ms2 : List String) (r : RefitArg) (s : String) :
    (∀ cfg, baseSearchInit ms r = .ok cfg → cfg.1 = ms.map pyLower) ∧
    (∀ m0 rest, ms.map pyLower = m0 :: rest →
      baseSearchInit ms (.flag true) = .ok (m0 :: rest, some m0)) ∧
    (ms.map pyLower = ms2.map pyLower → baseSearchInit ms r = baseSearchInit ms2 r) ∧
    (baseSearchInit ms (.name s) =
      if (ms.map pyLower).contains (pyLower s)
      then .ok (ms.map pyLower, some (pyLower s))
      else .error (.valueError
        "It looks like the measure you want to use with refit (\x7b\x7d) is not in the measures parameter")) := by
  refine ⟨?_, ?_, ?_, ?_⟩
  · intro cfg h
    cases r with
    | name s' =>
        simp only [baseSearchInit] at h
        split at h
        · injection h with h'
          rw [← h']
        · exact absurd h (by simp)
    | flag b =>
        cases b with
        | true =>
            simp only [baseSearchInit] at h
            split at h
            · exact absurd h (by simp)
            · next m0 rest heq =>
                injection h with h'
                rw [← h']
        | false =>
            simp only [baseSearchInit] at h
            injection h with h'
            rw [← h']
  · intro m0 rest hms
    simp [baseSearchInit, hms]
  · intro hms
    simp only [baseSearchInit, hms]
  · simp only [baseSearchInit]

/-- Claim C10, witness: `['RMSE', 'MAE']` and `['rmse', 'mae']` initialize
identically; `refit=True` picks `rmse`; a refit string `RMSE` matches
case-insensitively. -/
theorem init_lowercase_C10_witness :
    baseSearchInit ["RMSE", "MAE"] (.flag true) = baseSearchInit ["rmse", "mae"] (.flag true) ∧
    baseSearchInit ["RMSE", "MAE"] (.flag true) = .ok (["rmse", "mae"], some "rmse") ∧
    baseSearchInit ["rmse", "mae"] (.name "RMSE") =
      .ok (["rmse", "mae"], some "rmse") := by
  refine ⟨(init_lowercase_C10 ["RMSE", "MAE"] ["rmse", "mae"] (.flag true) "").2.2.1 (by decide),
    (init_lowercase_C10 ["RMSE", "MAE"] [] (.flag true) "").2.1 "rmse" ["mae"] (by decide),
    ?_⟩
  have h := (init_lowercase_C10 ["rmse", "mae"] [] (.flag false) "RMSE").2.2.2
  rw [h]
  decide

theorem cartesianProd_length {α : Type} :
    ∀ ls : List (List α), (cartesianProd ls).length = (ls.map List.length).prod
  | [] => by simp [cartesianProd]
  | l :: ls => by
      simp [cartesianProd, List.length_flatMap, Function.comp_def,
        cartesianProd_length ls, List.map_const', List.sum_replicate, smul_eq_mul]

theorem cartesianProd_mem_length {α : Type} :
    ∀ (ls : List (List α)) (vs : List α), vs ∈ cartesianProd ls → vs.length = ls.length
  | [], vs, h => by
      simp [cartesianProd] at h
      simp [h]
  | l :: ls, vs, h => by
      simp only [cartesianProd, List.mem_flatMap, List.mem_map] at h
      obtain ⟨x, _, xs, hxs, rfl⟩ := h
      simp [cartesianProd_mem_length ls xs hxs]

theorem cartesianProd_nodup {α : Type} :
    ∀ ls : List (List α), (∀ l ∈ ls, l.Nodup) → (cartesianProd ls).Nodup
  | [], _ => by simp [cartesianProd]
  | l :: ls, h => by
      simp only [cartesianProd]
      rw [List.nodup_flatMap]
      refine ⟨fun x _ => ?_, ?_⟩
      · exact (cartesianProd_nodup ls (fun l' hl' => h l' (List.mem_cons_of_mem _ hl'))).map
          List.cons_injective
      · have hnd : l.Nodup := h l (List.mem_cons_self _ _)
        refine hnd.imp ?_
        intro x y hxy
        intro zs hx hy
        simp only [List.mem_map] at hx hy
        obtain ⟨xs, _, rfl⟩ := hx
        obtain ⟨ys, _, hy2⟩ := hy
        exact hxy (List.head_eq_of_cons_eq hy2.symm)

theorem zip_right_inj {α β : Type} :
    ∀ (ks : List β) (v1 v2 : List α), v1.length = ks.length → v2.length = ks.length →
      ks.zip v1 = ks.zip v2 → v1 = v2
  | [], v1, v2, h1, h2, _ => by
      cases v1 with
      | nil =>
          cases v2 with
          | nil => rfl
          | cons b v2 => simp at h2
      | cons a v1 => simp at h1
  | k :: ks, v1, v2, h1, h2, h => by
      cases v1 with
      | nil => simp at h1
      | cons a v1 =>
          cases v2 with
          | nil => simp at h2
          | cons b v2 =>
              simp only [List.zip_cons_cons, List.cons.injEq, Prod.mk.injEq, true_and] at h
              rw [h.1, zip_right_inj ks v1 v2 (by simpa using h1) (by simpa using h2) h.2]

/-- Claim C9, counterexample: the grid `{a: [1, 1]}` is non-empty with a
non-empty value list, yet its expansion contains the combination
`{a: 1}` twice — the claimed absence of duplicates needs the value lists
themselves to be duplicate-free. -/
theorem expander_duplicates_cex_C9 :
    ([("a", [1, 1])] : List (String × List Nat)) ≠ [] ∧
    (∀ kv ∈ ([("a", [1, 1])] : List (String × List Nat)), kv.2 ≠ []) ∧
    expandGrid [("a", [1, 1])] = [[("a", 1)], [("a", 1)]] ∧
    ¬ (expandGrid [("a", [1, 1])]).Nodup := by
  refine ⟨by decide, by decide, by decide, by decide⟩

/-- Claim C9, amended: the expander (a pure function of the grid, hence
deterministic and reproducible across calls) returns exactly the product
of the value-list lengths many combinations, each combination's key list
equal to the grid's key list; the combinations are pairwise distinct
provided every value list is itself duplicate-free. -/
theorem expander_product_C9 {α : Type} (grid : List (String × List α)) :
    (expandGrid grid).length = (grid.map (fun kv => kv.2.length)).prod ∧
    (∀ c ∈ expandGrid grid, c.map Prod.fst = grid.map Prod.fst) ∧
    ((∀ kv ∈ grid, kv.2.Nodup) → (expandGrid grid).Nodup) := by
  refine ⟨?_, ?_, ?_⟩
  · simp only [expandGrid, List.length_map, cartesianProd_length, List.map_map]
    rfl
  · intro c hc
    simp only [expandGrid, List.mem_map] at hc
    obtain ⟨vs, hvs, rfl⟩ := hc
    have hlen : vs.length = grid.length := by
      simpa using cartesianProd_mem_length _ _ hvs
    exact List.map_fst_zip _ _ (by simp [hlen])
  · intro hnd
    refine (cartesianProd_nodup _ ?_).map_on ?_
    · intro l hl
      simp only [List.mem_map] at hl
      obtain ⟨kv, hkv, rfl⟩ := hl
      exact hnd kv hkv
    · intro x hx y hy hxy
      have hxl : x.length = grid.length := by
        simpa using cartesianProd_mem_length _ _ hx
      have hyl : y.length = grid.length := by
        simpa using cartesianProd_mem_length _ _ hy
      exact zip_right_inj (grid.map Prod.fst) x y (by simp [hxl]) (by simp [hyl]) hxy

/-- Claim C9, witness: the spec's own example grid `{a: [1,2], b: [10,20]}`
expands to the four pairs, in the deterministic product order, without
duplicates. -/
theorem expander_product_C9_witness :
    (expandGrid [("a", [1, 2]), ("b", [10, 20])]).length = 4 ∧
    (expandGrid [("a", [1, 2]), ("b", [10, 20])]).Nodup ∧
    expandGrid [("a", [1, 2]), ("b", [10, 20])] =
      [[("a", 1), ("b", 10)], [("a", 1), ("b", 20)],
       [("a", 2), ("b", 10)], [("a", 2), ("b", 20)]] :=
  ⟨by have h := (expander_product_C9 [("a", [1, 2]), ("b", [10, 20])]).1; simpa using h,
   (expander_product_C9 [("a", [1, 2]), ("b", [10, 20])]).2.2 (by decide),
   by decide⟩

theorem mapM_ok_get? {ε α β : Type} (f : α → Except ε β) :
    ∀ (l : List α) (r : List β), l.mapM f = .ok r →
      ∀ (k : Nat) (a : α), l[k]? = some a → ∃ b, r[k]? = some b ∧ f a = .ok b
  | [], _, _, k, a, ha => by simp at ha
  | x :: l, r, h, k, a, ha => by
      rw [List.mapM_cons] at h
      obtain ⟨b, hb, h2⟩ := except_bind_ok h
      obtain ⟨bs, hbs, h3⟩ := except_bind_ok h2
      rw [← except_pure_ok h3]
      cases k with
      | zero =>
          simp only [List.getElem?_cons_zero, Option.some.injEq] at ha
          exact ⟨b, by simp, ha ▸ hb⟩
      | succ k' =>
          simp only [List.getElem?_cons_succ] at ha ⊢
          exact mapM_ok_get? f l bs hbs k' a ha

theorem scheduleTrials_length {P Fold : Type} (combs : List P) (folds : List Fold) :
    (scheduleTrials combs folds).length = combs.length * folds.length := by
  simp [scheduleTrials, List.length_flatMap, Function.comp_def, List.map_const',
    List.sum_replicate, smul_eq_mul, Nat.mul_comm]

theorem scheduleTrials_get? {P Fold : Type} :
    ∀ (combs : List P) (folds : List Fold) (i j : Nat) (p : P) (f : Fold),
      combs[i]? = some p → folds[j]? = some f →
      (scheduleTrials combs folds)[i * folds.length + j]? = some (p, f)
  | [], _, i, _, _, _, hp, _ => by simp at hp
  | c :: combs, folds, i, j, p, f, hp, hf => by
      cases i with
      | zero =>
          simp only [List.getElem?_cons_zero, Option.some.injEq] at hp
          subst hp
          have hj : j < folds.length := (List.getElem?_eq_some.mp hf).1
          rw [scheduleTrials, List.flatMap_cons, Nat.zero_mul, Nat.zero_add,
            List.getElem?_append_left (by simpa using hj), List.getElem?_map, hf]
          rfl
      | succ i' =>
          simp only [List.getElem?_cons_succ] at hp
          have harith : (i' + 1) * folds.length + j =
              (folds.map (fun f => (c, f))).length + (i' * folds.length + j) := by
            simp [Nat.succ_mul]
            ring
          rw [scheduleTrials, List.flatMap_cons, harith,
            List.getElem?_append_right (Nat.le_add_right _ _), Nat.add_sub_cancel_left]
          exact scheduleTrials_get? combs folds i' j p f hp hf

/-- Claim C5: the Trial Scheduler produces exactly one trial per
(combination, fold) pair — `combinations × folds` many — ordered with the
fold varying fastest, so that entry `i * n_folds + j` of the flat sequence
is the pair (combination `i`, fold `j`); and the executed results sit at
the same flat index: entry `i * n_folds + j` of the output is the worker's
result for combination `i` on fold `j`. -/
theorem trial_scheduler_order_C5 {V E Fold FullTr : Type}
    (ext : Externals V E Fold FullTr) (measures : List String) (rtm : Bool)
    (combs : List (List (String × V))) (folds : List Fold) :
    (scheduleTrials combs folds).length = combs.length * folds.length ∧
    (∀ (i j : Nat) (p : List (String × V)) (f : Fold),
      combs[i]? = some p → folds[j]? = some f →
      (scheduleTrials combs folds)[i * folds.length + j]? = some (p, f)) ∧
    (∀ out, runTrials ext measures rtm (scheduleTrials combs folds) = .ok out →
      out.length = combs.length * folds.length ∧
      (∀ (i j : Nat) (p : List (String × V)) (f : Fold),
        combs[i]? = some p → folds[j]? = some f →
        ∃ tr algo, out[i * folds.length + j]? = some tr ∧
          ext.algoClass p = .ok algo ∧
          ext.fitAndScore algo f measures rtm = .ok tr)) := by
  refine ⟨scheduleTrials_length combs folds, ?_, ?_⟩
  · intro i j p f hp hf
    exact scheduleTrials_get? combs folds i j p f hp hf
  · intro out hout
    constructor
    · rw [mapM_ok_length _ _ _ hout, scheduleTrials_length]
    · intro i j p f hp hf
      obtain ⟨tr, htr, hrun⟩ := mapM_ok_get? _ _ _ hout (i * folds.length + j) (p, f)
        (scheduleTrials_get? combs folds i j p f hp hf)
      obtain ⟨algo, halgo, hfs⟩ := except_bind_ok hrun
      exact ⟨tr, algo, htr, halgo, hfs⟩

/-- Claim C5, witness: two combinations and one fold under the concrete
externals; the trial at flat index `1 * 1 + 0` is combination 1 on fold
0. -/
theorem trial_scheduler_order_C5_witness :
    (scheduleTrials [[("a", 1)], [("a", 2)]] ([10] : List Nat)).length = 2 * 1 ∧
    (scheduleTrials [[("a", 1)], [("a", 2)]] ([10] : List Nat))[1 * 1 + 0]? =
      some ([("a", 2)], 10) ∧
    (∃ tr algo,
      ([⟨[("rmse", 11), ("mae", 10), ("fcp", -9)], [("rmse", 0)], 1, 10⟩,
        ⟨[("rmse", 12), ("mae", 20), ("fcp", -8)], [("rmse", 0)], 2, 10⟩] :
        List TrialResult)[1 * 1 + 0]? = some tr ∧
      extFix.algoClass [("a", 2)] = .ok algo ∧
      extFix.fitAndScore algo 10 ["rmse"] false = .ok tr) :=
  have h := trial_scheduler_order_C5 extFix ["rmse"] false [[("a", 1)], [("a", 2)]] [10]
  ⟨h.1, h.2.1 1 0 _ _ (by decide) (by decide),
   (h.2.2 _ (by decide)).2 1 0 _ _ (by decide) (by decide)⟩

theorem listGet_ok {α : Type} {l : List α} {i : Nat} {v : α}
    (h : listGet l i = .ok v) : l[i]? = some v := by
  simp only [listGet] at h
  split at h
  · next heq =>
      injection h with h'
      subst h'
      simpa using heq
  · exact absurd h (by simp)

theorem processMeasure_ok_elim {V E Fold FullTr : Type} {ext : Externals V E Fold FullTr}
    {combs : List (List (String × V))} {F : Nat} {rtm : Bool} {m : String}
    {matT matTr : List (List ℚ)} {r : MeasureResult V E}
    (h : processMeasure ext combs F rtm m matT matTr = .ok r) :
    r.measure = m ∧
    r.splitTest = (List.range F).map (fun j => matT.map (fun row => row.getD j 0)) ∧
    r.meanTest = matT.map qMean ∧
    r.stdSqTest = matT.map qVarPop ∧
    r.rankTest = rankTestColumn (matT.map qMean) ∧
    bestIndexFor m (matT.map qMean) = .ok r.bestIndex ∧
    listGet combs r.bestIndex = .ok r.bestParams ∧
    listGet (matT.map qMean) r.bestIndex = .ok r.bestScore ∧
    ext.algoClass r.bestParams = .ok r.bestEstimator := by
  simp only [processMeasure] at h
  obtain ⟨bi, hbi, h2⟩ := except_bind_ok h
  obtain ⟨bp, hbp, h3⟩ := except_bind_ok h2
  obtain ⟨bs, hbs, h4⟩ := except_bind_ok h3
  obtain ⟨be, hbe, h5⟩ := except_bind_ok h4
  have hr := except_pure_ok h5
  rw [← hr]
  exact ⟨rfl, rfl, rfl, rfl, rfl, hbi, hbp, hbs, hbe⟩

theorem bestIndexFor_ok_min {m : String} {means : List ℚ} {bi : Nat}
    (hm : m = "mae" ∨ m = "rmse") (h : bestIndexFor m means = .ok bi) :
    means ≠ [] ∧ bi = argminIdx means := by
  rw [bestIndexFor, if_pos hm] at h
  split at h
  · exact absurd h (by simp)
  · next hne =>
      refine ⟨by simpa [List.isEmpty_iff] using hne, ?_⟩
      injection h with h'
      exact h'.symm

theorem bestIndexFor_ok_max {means : List ℚ} {bi : Nat}
    (h : bestIndexFor "fcp" means = .ok bi) :
    means ≠ [] ∧ bi = argmaxIdx means := by
  rw [bestIndexFor, if_neg (by decide), if_pos rfl] at h
  split at h
  · exact absurd h (by simp)
  · next hne =>
      refine ⟨by simpa [List.isEmpty_iff] using hne, ?_⟩
      injection h with h'
      exact h'.symm

/-- Claim C1: on success of the per-measure loop body, `best_params[m]`
and `best_score[m]` are the combination and the mean at `best_index[m]`,
and `best_index[m]` is the first-occurrence argmin of the per-combination
mean test scores for the minimize-direction measures `rmse`/`mae`
(respectively the first-occurrence argmax for `fcp`): the selected mean is
no worse than every mean, and strictly better than every mean at an
earlier combination index. -/
theorem best_selector_direction_C1 {V E Fold FullTr : Type}
    (ext : Externals V E Fold FullTr) (combs : List (List (String × V)))
    (F : Nat) (rtm : Bool) (m : String) (matT matTr : List (List ℚ))
    (r : MeasureResult V E)
    (hok : processMeasure ext combs F rtm m matT matTr = .ok r) :
    r.meanTest = matT.map qMean ∧
    combs[r.bestIndex]? = some r.bestParams ∧
    r.meanTest[r.bestIndex]? = some r.bestScore ∧
    ((m = "rmse" ∨ m = "mae") →
      r.bestIndex < r.meanTest.length ∧
      (∀ j, j < r.meanTest.length →
        r.meanTest.getD r.bestIndex 0 ≤ r.meanTest.getD j 0) ∧
      (∀ j, j < r.bestIndex →
        r.meanTest.getD r.bestIndex 0 < r.meanTest.getD j 0)) ∧
    (m = "fcp" →
      r.bestIndex < r.meanTest.length ∧
      (∀ j, j < r.meanTest.length →
        r.meanTest.getD j 0 ≤ r.meanTest.getD r.bestIndex 0) ∧
      (∀ j, j < r.bestIndex →
        r.meanTest.getD j 0 < r.meanTest.getD r.bestIndex 0)) := by
  obtain ⟨-, -, hmean, -, -, hbi, hbp, hbs, -⟩ := processMeasure_ok_elim hok
  refine ⟨hmean, listGet_ok hbp, ?_, ?_, ?_⟩
  · rw [hmean]
    exact listGet_ok hbs
  · intro hm
    have hmin := bestIndexFor_ok_min (hm.elim (fun h => Or.inr h) (fun h => Or.inl h)) hbi
    rw [hmean, hmin.2]
    exact ⟨argminIdx_lt_length _ hmin.1,
      argminIdx_le _ hmin.1,
      fun j hj => argminIdx_first _ j hj⟩
  · intro hm
    subst hm
    have hmax := bestIndexFor_ok_max hbi
    rw [hmean, hmax.2]
    exact ⟨argmaxIdx_lt_length _ hmax.1,
      argmaxIdx_ge _ hmax.1,
      fun j hj => argmaxIdx_first _ j hj⟩

/-- Claim C1, witness: two combinations with one fold each, measure
`rmse`; the selector picks index 1 (mean 1 beats mean 3), its params and
score are read off at that index, and its mean is strictly below the mean
of the earlier combination. -/
theorem best_selector_direction_C1_witness :
    processMeasure extFix [[("a", 1)], [("a", 2)]] 1 false "rmse" [[3], [1]] [] =
      .ok ⟨"rmse", [[3, 1]], [], [3, 1], [0, 0], [], [], [2, 1], 1, [("a", 2)], 1, 2⟩ ∧
    ([[("a", 1)], [("a", 2)]] : List (List (String × Nat)))[(1 : Nat)]? = some [("a", 2)] ∧
    ([3, 1] : List ℚ)[(1 : Nat)]? = some 1 ∧
    ([3, 1] : List ℚ).getD 1 0 ≤ ([3, 1] : List ℚ).getD 0 0 ∧
    ([3, 1] : List ℚ).getD 1 0 < ([3, 1] : List ℚ).getD 0 0 :=
  have h := best_selector_direction_C1 extFix [[("a", 1)], [("a", 2)]] 1 false "rmse"
    [[3], [1]] [] ⟨"rmse", [[3, 1]], [], [3, 1], [0, 0], [], [], [2, 1], 1, [("a", 2)], 1, 2⟩
    (by decide)
  ⟨by decide, h.2.1, h.2.2.1,
   (h.2.2.2.1 (Or.inl rfl)).2.1 0 (by decide),
   (h.2.2.2.1 (Or.inl rfl)).2.2 0 (by decide)⟩

theorem getD_map_of_lt {α β : Type} (f : α → β) (l : List α) {i : Nat} (da : α) (db : β)
    (hi : i < l.length) : (l.map f).getD i db = f (l.getD i da) := by
  rw [List.getD_eq_getElem?_getD, List.getElem?_map,
    List.getElem?_eq_getElem hi, List.getD_eq_getElem?_getD,
    List.getElem?_eq_getElem hi]
  rfl

theorem reshapeRows_length (C F : Nat) (l : List ℚ) :
    (reshapeRows C F l).length = C := by
  simp [reshapeRows]

theorem reshapeRows_getD (C F : Nat) (l : List ℚ) {i : Nat} (hi : i < C) :
    (reshapeRows C F l).getD i [] =
      (List.range F).map (fun j => l.getD (i * F + j) 0) := by
  rw [reshapeRows, getD_map_of_lt _ _ 0 [] (by simpa using hi),
    List.getD_eq_getElem?_getD, List.getElem?_range hi]
  rfl

theorem flat_index_lt {i j C F : Nat} (hi : i < C) (hj : j < F) :
    i * F + j < C * F :=
  Nat.lt_of_lt_of_le
    (by rw [Nat.succ_mul]; omega : i * F + j < (i + 1) * F)
    (Nat.mul_le_mul_right F hi)

theorem qMean_eq_specArithMean (l : List ℚ) : qMean l = specArithMean l := rfl

theorem qVarPop_eq_specPopVariance (l : List ℚ) : qVarPop l = specPopVariance l := by
  simp [qVarPop, qMean, specPopVariance, specArithMean]

theorem dictGet_ok {β : Type} {d : List (String × β)} {k : String} {v : β}
    (h : dictGet d k = .ok v) : d.lookup k = some v := by
  simp only [dictGet] at h
  split at h
  · next heq =>
      injection h with h'
      rw [heq, h']
  · exact absurd h (by simp)

theorem buildMats_ok_elim {measures : List String} {rtm : Bool} {C F : Nat}
    {out : List TrialResult} {mats : List (String × List (List ℚ) × List (List ℚ))}
    (hb : buildMats measures rtm C F out = .ok mats) :
    ∀ mm ∈ mats, mm.1 ∈ measures ∧ ∃ flatT,
      (out.map TrialResult.testMeasures).mapM (fun d => dictGet d mm.1) = .ok flatT ∧
      mm.2.1 = reshapeRows C F flatT := by
  intro mm hmm
  obtain ⟨m', hm', hg⟩ := mapM_ok_mem _ _ _ hb mm hmm
  obtain ⟨flatT, hflat, h2⟩ := except_bind_ok hg
  dsimp only at h2
  split at h2
  · obtain ⟨flatTr, _, h3⟩ := except_bind_ok h2
    obtain ⟨y, _, h4⟩ := except_bind_ok h3
    have hpure := except_pure_ok h4
    rw [← hpure]
    exact ⟨hm', flatT, hflat, rfl⟩
  · obtain ⟨y, _, h4⟩ := except_bind_ok h2
    have hpure := except_pure_ok h4
    rw [← hpure]
    exact ⟨hm', flatT, hflat, rfl⟩

theorem reshape_stat_row (C F : Nat) (g : TrialResult → ℚ) (out : List TrialResult)
    (hlen : out.length = C * F) {i : Nat} (hi : i < C) :
    ((reshapeRows C F (out.map g)).map qMean).getD i 0 =
      specArithMean ((List.range F).map (fun j => g (out.getD (i * F + j) default))) ∧
    ((reshapeRows C F (out.map g)).map qVarPop).getD i 0 =
      specPopVariance ((List.range F).map (fun j => g (out.getD (i * F + j) default))) := by
  have hrow : (reshapeRows C F (out.map g)).getD i [] =
      (List.range F).map (fun j => g (out.getD (i * F + j) default)) := by
    rw [reshapeRows_getD C F _ hi]
    apply List.map_congr_left
    intro j hj
    have hj' : j < F := List.mem_range.mp hj
    exact getD_map_of_lt g out default 0 (by rw [hlen]; exact flat_index_lt hi hj')
  have hiC : i < (reshapeRows C F (out.map g)).length := by
    rw [reshapeRows_length]; exact hi
  constructor
  · rw [getD_map_of_lt qMean _ [] 0 hiC, hrow, qMean_eq_specArithMean]
  · rw [getD_map_of_lt qVarPop _ [] 0 hiC, hrow, qVarPop_eq_specPopVariance]

/-- Claim C4: for every measure and combination row, the aggregated
`mean_test_{m}` entry is the arithmetic mean of that combination's
per-fold raw test values (read off the flat trial sequence), the squared
`std_test_{m}` entry is their population variance (the `ddof=0` divisor
`n`, not the sample divisor `n - 1`), and the four timing columns are the
same mean/population statistics of the per-fold fit and test times. -/
theorem aggregator_mean_std_C4 {V E Fold FullTr : Type}
    (ext : Externals V E Fold FullTr) (combs : List (List (String × V)))
    (measures : List String) (rtm : Bool) (C F : Nat) (out : List TrialResult)
    (m : String) (mats : List (String × List (List ℚ) × List (List ℚ)))
    (matT matTr : List (List ℚ)) (r : MeasureResult V E) (i : Nat)
    (hlen : out.length = C * F)
    (hb : buildMats measures rtm C F out = .ok mats)
    (hmem : (m, matT, matTr) ∈ mats)
    (hok : processMeasure ext combs F rtm m matT matTr = .ok r)
    (hi : i < C) :
    r.meanTest.getD i 0 = specArithMean (rawTestRow out F m i) ∧
    r.stdSqTest.getD i 0 = specPopVariance (rawTestRow out F m i) ∧
    ((reshapeRows C F (out.map TrialResult.fitTime)).map qMean).getD i 0 =
      specArithMean ((List.range F).map (fun j => (out.getD (i * F + j) default).fitTime)) ∧
    ((reshapeRows C F (out.map TrialResult.fitTime)).map qVarPop).getD i 0 =
      specPopVariance ((List.range F).map (fun j => (out.getD (i * F + j) default).fitTime)) ∧
    ((reshapeRows C F (out.map TrialResult.testTime)).map qMean).getD i 0 =
      specArithMean ((List.range F).map (fun j => (out.getD (i * F + j) default).testTime)) ∧
    ((reshapeRows C F (out.map TrialResult.testTime)).map qVarPop).getD i 0 =
      specPopVariance ((List.range F).map (fun j => (out.getD (i * F + j) default).testTime)) := by
  obtain ⟨hm1, flatT, hflat, hmatT⟩ := buildMats_ok_elim hb (m, matT, matTr) hmem
  dsimp only at hm1 hflat hmatT
  obtain ⟨-, -, hmeanTest, hstdTest, -, -, -, -, -⟩ := processMeasure_ok_elim hok
  have hrow : matT.getD i [] = rawTestRow out F m i := by
    rw [hmatT, reshapeRows_getD C F flatT hi, rawTestRow]
    apply List.map_congr_left
    intro j hj
    have hj' : j < F := List.mem_range.mp hj
    have hk : i * F + j < (out.map TrialResult.testMeasures).length := by
      rw [List.length_map, hlen]; exact flat_index_lt hi hj'
    have hdg := mapM_ok_getD _ ([] : List (String × ℚ)) (0 : ℚ) _ _ hflat (i * F + j) hk
    rw [getD_map_of_lt TrialResult.testMeasures out default []
      (by rw [hlen]; exact flat_index_lt hi hj')] at hdg
    rw [dictGet_ok hdg]
    rfl
  have hmatT_len : i < matT.length := by
    rw [hmatT, reshapeRows_length]; exact hi
  refine ⟨?_, ?_, (reshape_stat_row C F _ out hlen hi).1,
    (reshape_stat_row C F _ out hlen hi).2,
    (reshape_stat_row C F _ out hlen hi).1,
    (reshape_stat_row C F _ out hlen hi).2⟩
  · rw [hmeanTest, getD_map_of_lt qMean matT [] 0 hmatT_len, hrow,
      qMean_eq_specArithMean]
  · rw [hstdTest, getD_map_of_lt qVarPop matT [] 0 hmatT_len, hrow,
      qVarPop_eq_specPopVariance]

/-- Claim C4, witness: two combinations, two folds, measure `rmse` with
raw fold values `[1, 3]` and `[5, 7]`: the mean column is `[2, 6]`, the
squared std column `[1, 1]` (population divisor 2, where the sample
variance would be 2), and the fit/test time columns aggregate the per-fold
times the same way. -/
theorem aggregator_mean_std_C4_witness :
    buildMats ["rmse"] false 2 2
      [⟨[("rmse", 1)], [], 1, 10⟩, ⟨[("rmse", 3)], [], 2, 20⟩,
       ⟨[("rmse", 5)], [], 3, 30⟩, ⟨[("rmse", 7)], [], 4, 40⟩] =
      .ok [("rmse", [[1, 3], [5, 7]], [])] ∧
    (MeasureResult.meanTest ⟨"rmse", [[1, 5], [3, 7]], [], [2, 6], [1, 1], [], [], [1, 2],
      0, [("a", 1)], 2, 1⟩).getD 0 0 =
      specArithMean (rawTestRow
        [⟨[("rmse", 1)], [], 1, 10⟩, ⟨[("rmse", 3)], [], 2, 20⟩,
         ⟨[("rmse", 5)], [], 3, 30⟩, ⟨[("rmse", 7)], [], 4, 40⟩] 2 "rmse" 0) ∧
    (MeasureResult.stdSqTest ⟨"rmse", [[1, 5], [3, 7]], [], [2, 6], [1, 1], [], [], [1, 2],
      0, [("a", 1)], 2, 1⟩).getD 0 0 =
      specPopVariance (rawTestRow
        [⟨[("rmse", 1)], [], 1, 10⟩, ⟨[("rmse", 3)], [], 2, 20⟩,
         ⟨[("rmse", 5)], [], 3, 30⟩, ⟨[("rmse", 7)], [], 4, 40⟩] 2 "rmse" 0) ∧
    ((reshapeRows 2 2 (([⟨[("rmse", 1)], [], 1, 10⟩, ⟨[("rmse", 3)], [], 2, 20⟩,
        ⟨[("rmse", 5)], [], 3, 30⟩, ⟨[("rmse", 7)], [], 4, 40⟩] :
        List TrialResult).map TrialResult.fitTime)).map qMean).getD 0 0 =
      specArithMean ((List.range 2).map (fun j =>
        (([⟨[("rmse", 1)], [], 1, 10⟩, ⟨[("rmse", 3)], [], 2, 20⟩,
           ⟨[("rmse", 5)], [], 3, 30⟩, ⟨[("rmse", 7)], [], 4, 40⟩] :
           List TrialResult).getD (0 * 2 + j) default).fitTime)) ∧
    specPopVariance ([1, 3] : List ℚ) = 1 ∧
    specSampleVariance ([1, 3] : List ℚ) = 2 :=
  have h := aggregator_mean_std_C4 extFix [[("a", 1)], [("a", 2)]] ["rmse"] false 2 2
    [⟨[("rmse", 1)], [], 1, 10⟩, ⟨[("rmse", 3)], [], 2, 20⟩,
     ⟨[("rmse", 5)], [], 3, 30⟩, ⟨[("rmse", 7)], [], 4, 40⟩]
    "rmse" [("rmse", [[1, 3], [5, 7]], [])] [[1, 3], [5, 7]] []
    ⟨"rmse", [[1, 5], [3, 7]], [], [2, 6], [1, 1], [], [], [1, 2], 0, [("a", 1)], 2, 1⟩
    0 (by decide) (by decide) (by decide) (by decide) (by decide)
  ⟨by decide, h.1, h.2.1, h.2.2.1, by decide, by decide⟩

theorem rankFromArgsort_getD (idx : List Nat) (n : Nat) {i : Nat} (hi : i < n) :
    (rankFromArgsort idx n).getD i 0 = idx.indexOf i + 1 := by
  rw [rankFromArgsort, getD_map_of_lt _ _ 0 0 (by simpa using hi)]
  congr 1
  rw [List.getD_eq_getElem?_getD, List.getElem?_range hi]
  rfl

theorem rankFromArgsort_perm (idx : List Nat) (n : Nat)
    (hperm : idx.Perm (List.range n)) :
    (rankFromArgsort idx n).Perm (List.range' 1 n) := by
  have hlen : idx.length = n := hperm.length_eq.trans (List.length_range n)
  have hL : ((List.range n).map (fun i => idx.indexOf i)).Perm (List.range n) := by
    have hsub : ((List.range n).map (fun i => idx.indexOf i)) ⊆ List.range n := by
      intro x hx
      simp only [List.mem_map] at hx
      obtain ⟨i, hi, rfl⟩ := hx
      have hmem : i ∈ idx := hperm.mem_iff.mpr hi
      exact List.mem_range.mpr (hlen ▸ List.indexOf_lt_length.mpr hmem)
    have hndL : ((List.range n).map (fun i => idx.indexOf i)).Nodup := by
      refine (List.nodup_range n).map_on ?_
      intro x hx y hy hxy
      exact (List.indexOf_inj (hperm.mem_iff.mpr hx) (hperm.mem_iff.mpr hy)).mp hxy
    exact (List.subperm_of_subset hndL hsub).perm_of_length_le
      (by simp)
  have heq : rankFromArgsort idx n =
      ((List.range n).map (fun i => idx.indexOf i)).map (fun x => x + 1) := by
    rw [rankFromArgsort, List.map_map]
    rfl
  have hshift : (List.range n).map (fun x => x + 1) = List.range' 1 n := by
    rw [List.range'_eq_map_range]
    exact List.map_congr_left (fun a _ => Nat.add_comm a 1)
  rw [heq, ← hshift]
  exact hL.map (fun x => x + 1)

theorem rankFromArgsort_lt (means : List ℚ) (idx : List Nat)
    (hconf : ArgsortConforms means idx) {i j : Nat}
    (hi : i < means.length) (hj : j < means.length)
    (hlt : means.getD i 0 < means.getD j 0) :
    (rankFromArgsort idx means.length).getD i 0 <
      (rankFromArgsort idx means.length).getD j 0 := by
  obtain ⟨hperm, hsort⟩ := hconf
  have hmemi : i ∈ idx := hperm.mem_iff.mpr (List.mem_range.mpr hi)
  have hmemj : j ∈ idx := hperm.mem_iff.mpr (List.mem_range.mpr hj)
  have hpi : idx.indexOf i < idx.length := List.indexOf_lt_length.mpr hmemi
  have hpj : idx.indexOf j < idx.length := List.indexOf_lt_length.mpr hmemj
  rw [rankFromArgsort_getD _ _ hi, rankFromArgsort_getD _ _ hj]
  have hne : idx.indexOf i ≠ idx.indexOf j := by
    intro he
    exact absurd hlt (by
      rw [(List.indexOf_inj hmemi hmemj).mp he]
      exact lt_irrefl _)
  have hnotlt : ¬(idx.indexOf j < idx.indexOf i) := by
    intro hji
    have hs := List.pairwise_iff_getElem.mp hsort (idx.indexOf j) (idx.indexOf i)
      (by simpa using hpj) (by simpa using hpi) hji
    simp only [List.getElem_map] at hs
    rw [List.getElem_indexOf hpj, List.getElem_indexOf hpi] at hs
    exact absurd hlt (not_lt.mpr hs)
  omega

theorem rankFromArgsort_min (means : List ℚ) (idx : List Nat)
    (hconf : ArgsortConforms means idx) (hn : 0 < means.length) :
    ∃ i, i < means.length ∧ (rankFromArgsort idx means.length).getD i 0 = 1 ∧
      ∀ j, j < means.length → means.getD i 0 ≤ means.getD j 0 := by
  obtain ⟨hperm, hsort⟩ := hconf
  have hnd : idx.Nodup := hperm.nodup_iff.mpr (List.nodup_range _)
  have hlen : idx.length = means.length := hperm.length_eq.trans (List.length_range _)
  have h0 : 0 < idx.length := by omega
  have hhead : idx[0] ∈ List.range means.length :=
    hperm.mem_iff.mp (idx.getElem_mem h0)
  have hheadlt : idx[0] < means.length := List.mem_range.mp hhead
  refine ⟨idx[0], hheadlt, ?_, ?_⟩
  · rw [rankFromArgsort_getD _ _ hheadlt, List.indexOf_getElem hnd 0 h0]
  · intro j hj
    have hjm : j ∈ idx := hperm.mem_iff.mpr (List.mem_range.mpr hj)
    have hpj : idx.indexOf j < idx.length := List.indexOf_lt_length.mpr hjm
    rcases Nat.eq_zero_or_pos (idx.indexOf j) with h0j | h0j
    · have hjval := List.getElem_indexOf hpj
      have : idx[0] = j := by
        rw [← hjval]
        congr 1
        exact h0j.symm
      rw [this]
    · have hs := List.pairwise_iff_getElem.mp hsort 0 (idx.indexOf j)
        (by simpa using h0) (by simpa using hpj) h0j
      simp only [List.getElem_map] at hs
      rw [List.getElem_indexOf hpj] at hs
      exact hs

/-- Claim C3, counterexample: seventeen combinations with identical means
(all zero).  numpy's default argsort takes the quicksort path (the segment
exceeds `SMALL_QUICKSORT = 15` elements), whose partition exchanges swap
tied indices: combination 1 receives a larger rank than the later tied
combination 14, so ties are not broken by first occurrence, and the rank
column is not `[1, …, 17]` as stable first-occurrence ranking would
force. -/
theorem aggregator_rank_stability_cex_C3 :
    (List.replicate 17 (0 : ℚ)).getD 1 0 = (List.replicate 17 (0 : ℚ)).getD 14 0 ∧
    (rankTestColumn (List.replicate 17 (0 : ℚ))).getD 14 0 <
      (rankTestColumn (List.replicate 17 (0 : ℚ))).getD 1 0 ∧
    rankTestColumn (List.replicate 17 (0 : ℚ)) ≠ List.range' 1 17 := by
  refine ⟨by decide, by decide, by decide⟩

/-- Claim C3, amended: the rank column scatters ranks `1..n` through the
permutation numpy's argsort returns for the mean column.  Whenever that
output meets argsort's documented contract (a permutation of `0..n-1`
sorting the means ascending) the ranks are a permutation of `1..n`, any
combination with strictly smaller mean gets a strictly smaller rank, and
rank 1 goes to a combination of minimal mean; but tied means are ranked in
the order of numpy's introsort output, which is not first-occurrence
stable. -/
theorem aggregator_rank_amended_C3 (means : List ℚ)
    (hconf : ArgsortConforms means (npArgsort means)) (hn : 0 < means.length) :
    (rankTestColumn means).Perm (List.range' 1 means.length) ∧
    (∀ i j, i < means.length → j < means.length →
      means.getD i 0 < means.getD j 0 →
      (rankTestColumn means).getD i 0 < (rankTestColumn means).getD j 0) ∧
    (∃ i, i < means.length ∧ (rankTestColumn means).getD i 0 = 1 ∧
      ∀ j, j < means.length → means.getD i 0 ≤ means.getD j 0) :=
  ⟨rankFromArgsort_perm _ _ hconf.1,
   fun _ _ hi hj hlt => rankFromArgsort_lt _ _ hconf hi hj hlt,
   rankFromArgsort_min _ _ hconf hn⟩

/-- Claim C3, witness: for the means `[3, 1, 2]` the argsort output
`[1, 2, 0]` meets the contract, the rank column `[3, 1, 2]` is a
permutation of `1..3`, the combination with the smaller mean outranks the
first one, and rank 1 sits at a minimal mean. -/
theorem aggregator_rank_amended_C3_witness :
    ArgsortConforms [3, 1, 2] (npArgsort [3, 1, 2]) ∧
    (rankTestColumn [3, 1, 2]).Perm (List.range' 1 3) ∧
    (rankTestColumn [3, 1, 2]).getD 1 0 < (rankTestColumn [3, 1, 2]).getD 0 0 ∧
    (∃ i, i < ([3, 1, 2] : List ℚ).length ∧
      (rankTestColumn [3, 1, 2]).getD i 0 = 1 ∧
      ∀ j, j < ([3, 1, 2] : List ℚ).length →
        ([3, 1, 2] : List ℚ).getD i 0 ≤ ([3, 1, 2] : List ℚ).getD j 0) :=
  have h := aggregator_rank_amended_C3 [3, 1, 2] (by decide) (by decide)
  ⟨by decide, h.1, h.2.1 1 0 (by decide) (by decide) (by decide), h.2.2⟩

theorem rankTestColumn_length (means : List ℚ) :
    (rankTestColumn means).length = means.length := by
  simp [rankTestColumn, rankFromArgsort]

theorem assocUpdate_keys {β : Type} :
    ∀ (l : List (String × β)) (k : String) (v : β),
      (assocUpdate l k v).map Prod.fst = l.map Prod.fst
  | [], _, _ => rfl
  | (k', v') :: rest, k, v => by
      simp only [assocUpdate]
      split
      · simp
      · simp [assocUpdate_keys rest k v]

theorem buildMats_ok_keys {measures : List String} {rtm : Bool} {C F : Nat}
    {out : List TrialResult} {mats : List (String × List (List ℚ) × List (List ℚ))}
    (hb : buildMats measures rtm C F out = .ok mats) :
    mats.map Prod.fst = measures := by
  have h := mapM_ok_map_rel _ Prod.fst id ?_ measures mats hb
  · simpa using h
  · intro m mm hg
    obtain ⟨flatT, _, h2⟩ := except_bind_ok hg
    dsimp only at h2
    split at h2
    · obtain ⟨flatTr, _, h3⟩ := except_bind_ok h2
      obtain ⟨y, _, h4⟩ := except_bind_ok h3
      rw [← except_pure_ok h4]
      rfl
    · obtain ⟨y, _, h4⟩ := except_bind_ok h2
      rw [← except_pure_ok h4]
      rfl

theorem mres_keys {V E Fold FullTr : Type} {ext : Externals V E Fold FullTr}
    {combs : List (List (String × V))} {F : Nat} {rtm : Bool}
    {mats : List (String × List (List ℚ) × List (List ℚ))}
    {mres : List (MeasureResult V E)}
    (hm : mats.mapM (fun mm => processMeasure ext combs F rtm mm.1 mm.2.1 mm.2.2) =
      .ok mres) :
    mres.map MeasureResult.measure = mats.map Prod.fst := by
  exact mapM_ok_map_rel _ MeasureResult.measure Prod.fst
    (fun mm r h => (processMeasure_ok_elim h).1) mats mres hm

theorem mres_mem_shape {V E Fold FullTr : Type} {ext : Externals V E Fold FullTr}
    {combs : List (List (String × V))} {measures : List String} {rtm : Bool}
    {C F : Nat} {out : List TrialResult}
    {mats : List (String × List (List ℚ) × List (List ℚ))}
    {mres : List (MeasureResult V E)}
    (hb : buildMats measures rtm C F out = .ok mats)
    (hm : mats.mapM (fun mm => processMeasure ext combs F rtm mm.1 mm.2.1 mm.2.2) =
      .ok mres) :
    ∀ r ∈ mres, r.meanTest.length = C ∧ r.stdSqTest.length = C ∧
      r.rankTest.length = C ∧ r.splitTest.length = F ∧
      ∀ c ∈ r.splitTest, c.length = C := by
  intro r hr
  obtain ⟨mm, hmm, hpm⟩ := mapM_ok_mem _ _ _ hm r hr
  obtain ⟨-, hsplit, hmean, hstd, hrank, -, -, -, -⟩ := processMeasure_ok_elim hpm
  obtain ⟨-, flatT, -, hmatT⟩ := buildMats_ok_elim hb mm hmm
  have hlen : mm.2.1.length = C := by
    rw [hmatT]; exact reshapeRows_length C F flatT
  refine ⟨?_, ?_, ?_, ?_, ?_⟩
  · rw [hmean]; simpa using hlen
  · rw [hstd]; simpa using hlen
  · rw [hrank, rankTestColumn_length]; simpa using hlen
  · rw [hsplit]; simp
  · rw [hsplit]
    intro c hc
    simp only [List.mem_map] at hc
    obtain ⟨j, -, rfl⟩ := hc
    simpa using hlen

/-- Claim C6: `fit` is atomic with respect to the retained attributes — on
any raise the object keeps exactly its previous state (the five
assignments of lines 145–149 come after every fallible statement), and on
success it commits a consistent result: configuration and combinations
untouched, every `best_*` mapping keyed by exactly the requested measures
in order, and every results-table column with one entry per
combination. -/
theorem fit_atomic_commit_C6 {V E Fold FullTr : Type}
    (ext : Externals V E Fold FullTr) (st : SearchState V E)
    (data : Dataset Fold FullTr) :
    (∀ e, (fitSelf ext st data).2 = .error e → (fitSelf ext st data).1 = st) ∧
    (∀ st', fit ext st data = .ok st' → FitCommitted st st' data.folds.length) := by
  constructor
  · intro e he
    unfold fitSelf at he ⊢
    cases hf : fit ext st data with
    | ok st'' => rw [hf] at he; exact absurd he (by simp)
    | error e' => rfl
  · intro st' hfit
    simp only [fit] at hfit
    split at hfit
    · exact absurd hfit
        (by simp [throw, throwThe, MonadExceptOf.throw, Bind.bind, Except.bind])
    · obtain ⟨u1, -, hfit⟩ := except_bind_ok hfit
      obtain ⟨out, hout, hfit⟩ := except_bind_ok hfit
      split at hfit
      · exact absurd hfit
          (by simp [throw, throwThe, MonadExceptOf.throw, Bind.bind, Except.bind])
      · obtain ⟨u2, -, hfit⟩ := except_bind_ok hfit
        obtain ⟨mats, hmats, hfit⟩ := except_bind_ok hfit
        obtain ⟨mres, hmres, hfit⟩ := except_bind_ok hfit
        obtain ⟨first, hfirst, hfit⟩ := except_bind_ok hfit
        obtain ⟨paramCols, hcols, hfit⟩ := except_bind_ok hfit
        have hkeys : mres.map MeasureResult.measure = st.measures :=
          (mres_keys hmres).trans (buildMats_ok_keys hmats)
        have hshape := mres_mem_shape hmats hmres
        cases hre : st.refit with
        | none =>
            rw [hre] at hfit
            obtain ⟨y, hy, hfit⟩ := except_bind_ok hfit
            have hpure := except_pure_ok hfit
            rw [← hpure]
            refine ⟨rfl, hre.symm, rfl, rfl,
              ⟨_, rfl, by rw [List.map_map]; exact hkeys⟩,
              ⟨_, rfl, by rw [List.map_map]; exact hkeys⟩,
              ⟨_, rfl, by rw [List.map_map]; exact hkeys⟩,
              ⟨_, rfl, ?_⟩,
              ⟨_, rfl, by rw [List.map_map]; exact hkeys,
                by rw [List.map_map]; exact hkeys,
                by rw [List.map_map]; exact hkeys,
                by rw [List.map_map]; exact hkeys,
                ?_, ?_, ?_, ?_, ?_, ?_, ?_, ?_, rfl⟩⟩
            · rw [← except_pure_ok hy, List.map_map]
              exact hkeys
            · intro p hp
              simp only [List.mem_map] at hp
              obtain ⟨r, hr, rfl⟩ := hp
              exact (hshape r hr).1
            · intro p hp
              simp only [List.mem_map] at hp
              obtain ⟨r, hr, rfl⟩ := hp
              exact (hshape r hr).2.1
            · intro p hp
              simp only [List.mem_map] at hp
              obtain ⟨r, hr, rfl⟩ := hp
              exact (hshape r hr).2.2.1
            · intro p hp
              simp only [List.mem_map] at hp
              obtain ⟨r, hr, rfl⟩ := hp
              exact ⟨(hshape r hr).2.2.2.1, (hshape r hr).2.2.2.2⟩
            · simp [reshapeRows]
            · simp [reshapeRows]
            · simp [reshapeRows]
            · simp [reshapeRows]
        | some rm =>
            rw [hre] at hfit
            obtain ⟨est, hest, hfit⟩ := except_bind_ok hfit
            obtain ⟨fitted, hfitted, hfit⟩ := except_bind_ok hfit
            obtain ⟨y, hy, hfit⟩ := except_bind_ok hfit
            have hpure := except_pure_ok hfit
            rw [← hpure]
            refine ⟨rfl, hre.symm, rfl, rfl,
              ⟨_, rfl, by rw [List.map_map]; exact hkeys⟩,
              ⟨_, rfl, by rw [List.map_map]; exact hkeys⟩,
              ⟨_, rfl, by rw [List.map_map]; exact hkeys⟩,
              ⟨_, rfl, ?_⟩,
              ⟨_, rfl, by rw [List.map_map]; exact hkeys,
                by rw [List.map_map]; exact hkeys,
                by rw [List.map_map]; exact hkeys,
                by rw [List.map_map]; exact hkeys,
                ?_, ?_, ?_, ?_, ?_, ?_, ?_, ?_, rfl⟩⟩
            · rw [← except_pure_ok hy, assocUpdate_keys, List.map_map]
              exact hkeys
            · intro p hp
              simp only [List.mem_map] at hp
              obtain ⟨r, hr, rfl⟩ := hp
              exact (hshape r hr).1
            · intro p hp
              simp only [List.mem_map] at hp
              obtain ⟨r, hr, rfl⟩ := hp
              exact (hshape r hr).2.1
            · intro p hp
              simp only [List.mem_map] at hp
              obtain ⟨r, hr, rfl⟩ := hp
              exact (hshape r hr).2.2.1
            · intro p hp
              simp only [List.mem_map] at hp
              obtain ⟨r, hr, rfl⟩ := hp
              exact ⟨(hshape r hr).2.2.2.1, (hshape r hr).2.2.2.2⟩
            · simp [reshapeRows]
            · simp [reshapeRows]
            · simp [reshapeRows]
            · simp [reshapeRows]

/-- Claim C6, witness: a failing fit (unknown measure `mse`) leaves the
concrete state untouched, and the successful fit on the rmse/mae fixture
commits a consistent state. -/
theorem fit_atomic_commit_C6_witness :
    (fitSelf extFix { stFix with measures := ["mse"], refit := none } dataFix).2 =
      .error (.keyError "mse") ∧
    (fitSelf extFix { stFix with measures := ["mse"], refit := none } dataFix).1 =
      { stFix with measures := ["mse"], refit := none } ∧
    FitCommitted stFix ((fit extFix stFix dataFix).toOption.getD stFix) 2 :=
  ⟨by decide,
   (fit_atomic_commit_C6 extFix { stFix with measures := ["mse"], refit := none }
     dataFix).1 (.keyError "mse") (by decide),
   (fit_atomic_commit_C6 extFix stFix dataFix).2 _ (by decide)⟩
